import Mathlib

/-!
Verification of the alignment core of the Bioinformatics repository
(lab11/ex1.py: Needleman-Wunsch global aligner; lab11/ex2.py:
Smith-Waterman local aligner and the chunked-alignment driver).

Python strings are modelled as `List Char`, Python ints as `Int`,
Python floats (the derived percentage metrics, computed by exact
division in the claims under check) as `ℚ`.  The plotting-only fields
`score_matrix` and `path` of `AlignmentResult` are consumed only by the
visualization collaborator and are omitted from the embedded record.
Python's parameter names `match`/`mismatch`/`gap` are Lean keywords or
clash, so they appear here as `mt`/`mm`/`gp`.
-/

namespace Bioinf

/-- Traceback directions recorded in the pointer matrix of
`needleman_wunsch` (the strings "diag" / "up" / "left" in the source;
`none` stands for the initial empty string `""`, never consumed). -/
inductive Dir where
  | none
  | diag
  | up
  | left
deriving DecidableEq, Repr

/-! ## Needleman-Wunsch (src/lab11/ex1.py) -/

/-- Row 0 of the global score matrix: `scores[0][j] = j * gap_penalty`
accumulated exactly as the initialization loop does. -/
def nwRow0 (gap_penalty : Int) : Nat → Int
  | 0 => 0
  | j + 1 => nwRow0 gap_penalty j + gap_penalty

/-- Row `i+1` of the global score matrix, given row `i` (`prev`): the
body of the nested `for` loops of `needleman_wunsch`, which fills each
row from the previous row (`diag`, `up`) and the cell just written to
its left (`left`).  Column 0 accumulates `gap_penalty`. -/
def nwRowNext (seq1 seq2 : List Char) (match_score mismatch_score gap_penalty : Int)
    (prev : Nat → Int) (i : Nat) : Nat → Int
  | 0 => prev 0 + gap_penalty
  | j + 1 =>
      let diag := prev j +
        (if seq1.getD i ' ' = seq2.getD j ' ' then match_score else mismatch_score)
      let up := prev (j + 1) + gap_penalty
      let left := nwRowNext seq1 seq2 match_score mismatch_score gap_penalty prev i j +
        gap_penalty
      max diag (max up left)

/-- The rows of the global score matrix, built top to bottom exactly as
the source's outer loop does. -/
def nwRow (seq1 seq2 : List Char) (match_score mismatch_score gap_penalty : Int) :
    Nat → Nat → Int
  | 0 => nwRow0 gap_penalty
  | i + 1 => nwRowNext seq1 seq2 match_score mismatch_score gap_penalty
      (nwRow seq1 seq2 match_score mismatch_score gap_penalty i) i

/-- Score matrix of `needleman_wunsch`: cell `(i, j)` of `scores`. -/
def nwScore (seq1 seq2 : List Char) (match_score mismatch_score gap_penalty : Int)
    (i j : Nat) : Int :=
  nwRow seq1 seq2 match_score mismatch_score gap_penalty i j

/-- The diagonal candidate for interior cell `(i+1, j+1)`. -/
def nwDiag (seq1 seq2 : List Char) (match_score mismatch_score gap_penalty : Int)
    (i j : Nat) : Int :=
  nwScore seq1 seq2 match_score mismatch_score gap_penalty i j +
    (if seq1.getD i ' ' = seq2.getD j ' ' then match_score else mismatch_score)

/-- The up candidate for interior cell `(i+1, j+1)`. -/
def nwUp (seq1 seq2 : List Char) (match_score mismatch_score gap_penalty : Int)
    (i j : Nat) : Int :=
  nwScore seq1 seq2 match_score mismatch_score gap_penalty i (j + 1) + gap_penalty

/-- The left candidate for interior cell `(i+1, j+1)`. -/
def nwLeft (seq1 seq2 : List Char) (match_score mismatch_score gap_penalty : Int)
    (i j : Nat) : Int :=
  nwScore seq1 seq2 match_score mismatch_score gap_penalty (i + 1) j + gap_penalty

/-- Pointer matrix of `needleman_wunsch`: border cells point up / left,
an interior cell records diag, then up, then left, in that tie-break
priority. -/
def nwPointer (seq1 seq2 : List Char) (match_score mismatch_score gap_penalty : Int) :
    Nat → Nat → Dir
  | 0, 0 => Dir.none
  | _ + 1, 0 => Dir.up
  | 0, _ + 1 => Dir.left
  | i + 1, j + 1 =>
      let diag := nwDiag seq1 seq2 match_score mismatch_score gap_penalty i j
      let up := nwUp seq1 seq2 match_score mismatch_score gap_penalty i j
      let left := nwLeft seq1 seq2 match_score mismatch_score gap_penalty i j
      let best := max diag (max up left)
      if best = diag then Dir.diag else if best = up then Dir.up else Dir.left

/-- Traceback loop of `needleman_wunsch` (`while i > 0 or j > 0`),
with an explicit bound `fuel` on the number of iterations (each
iteration strictly decreases `i + j`, so `fuel = i + j` is exact; the
fuel-0 fallback is unreachable from `nwTrace`).  The source
accumulates the aligned characters back-to-front and reverses at the
end; here the pair of aligned lists is built directly in final
left-to-right order. -/
def nwTraceAux (seq1 seq2 : List Char) (match_score mismatch_score gap_penalty : Int) :
    Nat → Nat → Nat → List Char × List Char
  | _, 0, 0 => ([], [])
  | 0, _, _ => ([], [])
  | fuel + 1, i + 1, 0 =>
      let r := nwTraceAux seq1 seq2 match_score mismatch_score gap_penalty fuel i 0
      (r.1 ++ [seq1.getD i ' '], r.2 ++ ['-'])
  | fuel + 1, 0, j + 1 =>
      let r := nwTraceAux seq1 seq2 match_score mismatch_score gap_penalty fuel 0 j
      (r.1 ++ ['-'], r.2 ++ [seq2.getD j ' '])
  | fuel + 1, i + 1, j + 1 =>
      match nwPointer seq1 seq2 match_score mismatch_score gap_penalty (i + 1) (j + 1) with
      | Dir.diag =>
          let r := nwTraceAux seq1 seq2 match_score mismatch_score gap_penalty fuel i j
          (r.1 ++ [seq1.getD i ' '], r.2 ++ [seq2.getD j ' '])
      | Dir.up =>
          let r := nwTraceAux seq1 seq2 match_score mismatch_score gap_penalty fuel i (j + 1)
          (r.1 ++ [seq1.getD i ' '], r.2 ++ ['-'])
      | _ =>
          let r := nwTraceAux seq1 seq2 match_score mismatch_score gap_penalty fuel (i + 1) j
          (r.1 ++ ['-'], r.2 ++ [seq2.getD j ' '])

/-- Traceback of `needleman_wunsch` from cell `(i, j)` back to
`(0, 0)`. -/
def nwTrace (seq1 seq2 : List Char) (match_score mismatch_score gap_penalty : Int)
    (i j : Nat) : List Char × List Char :=
  nwTraceAux seq1 seq2 match_score mismatch_score gap_penalty (i + j) i j

/-- Result record of `needleman_wunsch` (ex1.py `AlignmentResult`,
without the plotting-only `score_matrix` and `path` fields; the source
field `matches` is a reserved word in Lean and appears as
`matchCount`). -/
structure AlignmentResult where
  aligned_seq1 : List Char
  aligned_seq2 : List Char
  matchCount : Nat
  length : Nat
  similarity : ℚ
deriving DecidableEq, Repr

/-- Global alignment, ex1.py `needleman_wunsch`. -/
def needleman_wunsch (seq1 seq2 : List Char)
    (match_score mismatch_score gap_penalty : Int) : AlignmentResult :=
  let t := nwTrace seq1 seq2 match_score mismatch_score gap_penalty seq1.length seq2.length
  let matchCount := (t.1.zip t.2).countP (fun p => p.1 == p.2)
  let length := t.1.length
  let similarity : ℚ := if length = 0 then 0 else 100 * (matchCount : ℚ) / (length : ℚ)
  { aligned_seq1 := t.1
    aligned_seq2 := t.2
    matchCount := matchCount
    length := length
    similarity := similarity }

/-! ## Smith-Waterman (src/lab11/ex2.py) -/

/-- Row `i+1` of the local score matrix, given row `i` (`prev`): the
body of the nested `for` loops of `smith_waterman`; every cell is
floored at zero, and column 0 keeps its initial 0. -/
def swRowNext (a b : List Char) (mt mm gp : Int) (prev : Nat → Int) (i : Nat) :
    Nat → Int
  | 0 => 0
  | j + 1 =>
      let diag := prev j + (if a.getD i ' ' = b.getD j ' ' then mt else mm)
      let up := prev (j + 1) + gp
      let left := swRowNext a b mt mm gp prev i j + gp
      max 0 (max diag (max up left))

/-- The rows of the local score matrix, built top to bottom; row 0
keeps its initial zeros. -/
def swRow (a b : List Char) (mt mm gp : Int) : Nat → Nat → Int
  | 0 => fun _ => 0
  | i + 1 => swRowNext a b mt mm gp (swRow a b mt mm gp i) i

/-- Score matrix of `smith_waterman`: row 0 and column 0 stay at the
initial 0, an interior cell is `max(0, diag, up, left)`. -/
def swScore (a b : List Char) (mt mm gp : Int) (i j : Nat) : Int :=
  swRow a b mt mm gp i j

/-- The diagonal candidate for interior cell `(i+1, j+1)` of the local
score matrix. -/
def swDiag (a b : List Char) (mt mm gp : Int) (i j : Nat) : Int :=
  swScore a b mt mm gp i j + (if a.getD i ' ' = b.getD j ' ' then mt else mm)

/-- The up candidate for interior cell `(i+1, j+1)` of the local score
matrix. -/
def swUp (a b : List Char) (mt mm gp : Int) (i j : Nat) : Int :=
  swScore a b mt mm gp i (j + 1) + gp

/-- The left candidate for interior cell `(i+1, j+1)` of the local
score matrix. -/
def swLeft (a b : List Char) (mt mm gp : Int) (i j : Nat) : Int :=
  swScore a b mt mm gp (i + 1) j + gp

/-- Pointer matrix of `smith_waterman` (integers as in the source:
0 = stop, 1 = diag, 2 = up, 3 = left). -/
def swPointer (a b : List Char) (mt mm gp : Int) : Nat → Nat → Nat
  | 0, _ => 0
  | _ + 1, 0 => 0
  | i + 1, j + 1 =>
      let diag := swDiag a b mt mm gp i j
      let up := swUp a b mt mm gp i j
      let left := swLeft a b mt mm gp i j
      let best := max 0 (max diag (max up left))
      if best = 0 then 0
      else if best = diag then 1
      else if best = up then 2
      else 3

/-- The interior cells `(i, j)`, `1 ≤ i ≤ na`, `1 ≤ j ≤ nb`, in the
row-major order of the source's nested `for` loops. -/
def swCells (na nb : Nat) : List (Nat × Nat) :=
  (List.range na).flatMap (fun i => (List.range nb).map (fun j => (i + 1, j + 1)))

/-- Row-major ordering of matrix coordinates: `c` is scanned strictly
before `d` in the top-to-bottom, left-to-right order of the source's
nested loops. -/
def rmLt (c d : Nat × Nat) : Prop :=
  c.1 < d.1 ∨ (c.1 = d.1 ∧ c.2 < d.2)

instance (c d : Nat × Nat) : Decidable (rmLt c d) := by
  unfold rmLt; infer_instance

/-- One step of the running-maximum update `if best > best_score`. -/
def bestStep (sc : Nat × Nat → Int) (acc : Int × (Nat × Nat)) (c : Nat × Nat) :
    Int × (Nat × Nat) :=
  if sc c > acc.1 then (sc c, c) else acc

/-- The `(best_score, best_pos)` pair tracked during matrix
construction, as a fold of `bestStep` over the row-major cells starting
from `(0, (0, 0))`. -/
def swBest (a b : List Char) (mt mm gp : Int) : Int × (Nat × Nat) :=
  (swCells a.length b.length).foldl
    (bestStep (fun c => swScore a b mt mm gp c.1 c.2)) (0, (0, 0))

/-- Output of the local traceback loop: the two aligned lists (already
in left-to-right order) and the final `(i, j)`, which become
`(start_a, start_b)`. -/
structure TraceOut where
  alignedA : List Char
  alignedB : List Char
  stopI : Nat
  stopJ : Nat
deriving DecidableEq, Repr

/-- Traceback loop of `smith_waterman`
(`while i > 0 and j > 0 and scores[i][j] > 0`), with an explicit bound
`fuel` on the number of iterations (each iteration strictly decreases
`i + j`, so `fuel = i + j` is exact; the fuel-0 fallback is
unreachable from `swTrace`).  As in the source, the `else` branch of
the move dispatch covers move 3 (and, vacuously, move 0, which cannot
occur at a positive-score cell). -/
def swTraceAux (a b : List Char) (mt mm gp : Int) : Nat → Nat → Nat → TraceOut
  | fuel, i, j =>
    if i = 0 ∨ j = 0 ∨ swScore a b mt mm gp i j ≤ 0 then
      ⟨[], [], i, j⟩
    else
      match fuel with
      | 0 => ⟨[], [], i, j⟩
      | fuel + 1 =>
        match swPointer a b mt mm gp i j with
        | 1 =>
            let r := swTraceAux a b mt mm gp fuel (i - 1) (j - 1)
            ⟨r.alignedA ++ [a.getD (i - 1) ' '], r.alignedB ++ [b.getD (j - 1) ' '],
              r.stopI, r.stopJ⟩
        | 2 =>
            let r := swTraceAux a b mt mm gp fuel (i - 1) j
            ⟨r.alignedA ++ [a.getD (i - 1) ' '], r.alignedB ++ ['-'], r.stopI, r.stopJ⟩
        | _ =>
            let r := swTraceAux a b mt mm gp fuel i (j - 1)
            ⟨r.alignedA ++ ['-'], r.alignedB ++ [b.getD (j - 1) ' '], r.stopI, r.stopJ⟩

/-- Traceback of `smith_waterman` starting at cell `(i, j)`. -/
def swTrace (a b : List Char) (mt mm gp : Int) (i j : Nat) : TraceOut :=
  swTraceAux a b mt mm gp (i + j) i j

/-- `matches` tally of ex2.py: equal non-gap pairs. -/
def swMatchCount (x y : List Char) : Nat :=
  (x.zip y).countP (fun p => p.1 == p.2 && p.1 != '-' && p.2 != '-')

/-- `mismatches` tally of ex2.py: unequal non-gap pairs. -/
def swMismatchCount (x y : List Char) : Nat :=
  (x.zip y).countP (fun p => p.1 != p.2 && p.1 != '-' && p.2 != '-')

/-- `gaps` tally of ex2.py: pairs with a gap on either side. -/
def swGapCount (x y : List Char) : Nat :=
  (x.zip y).countP (fun p => p.1 == '-' || p.2 == '-')

/-- `pos_score` of ex2.py:
`matches*match + mismatches*mismatch + gaps*gap`. -/
def swPosScore (x y : List Char) (mt mm gp : Int) : Int :=
  (swMatchCount x y : Int) * mt + (swMismatchCount x y : Int) * mm +
    (swGapCount x y : Int) * gp

/-- Result record of `smith_waterman` (ex2.py `LocalAlignment`). -/
structure LocalAlignment where
  aligned_a : List Char
  aligned_b : List Char
  score : Int
  start_a : Nat
  end_a : Nat
  start_b : Nat
  end_b : Nat
  identity : ℚ
  penalty_similarity : ℚ
  norm_score : ℚ
  coverage : ℚ
deriving DecidableEq, Repr

/-- Local alignment, ex2.py `smith_waterman`. -/
def smith_waterman (a b : List Char) (mt mm gp : Int) : LocalAlignment :=
  let bp := swBest a b mt mm gp
  let best_score := bp.1
  let t := swTrace a b mt mm gp bp.2.1 bp.2.2
  let pa := t.alignedA
  let pb := t.alignedB
  let L := pa.length
  let identity : ℚ := if L = 0 then 0 else 100 * (swMatchCount pa pb : ℚ) / (L : ℚ)
  let penalty_similarity : ℚ :=
    if L = 0 then 0 else
      100 * ((swMatchCount pa pb : ℚ) - (swMismatchCount pa pb : ℚ) -
        (swGapCount pa pb : ℚ)) / (L : ℚ)
  let norm_score : ℚ :=
    if L = 0 then 0 else
      100 * (swPosScore pa pb mt mm gp : ℚ) / ((L : ℚ) * ((max mt 1 : Int) : ℚ))
  let aligned_a_len := (pa.filter (fun c => c != '-')).length
  let coverage : ℚ :=
    if a.length = 0 then 0 else 100 * (aligned_a_len : ℚ) / (a.length : ℚ)
  { aligned_a := pa
    aligned_b := pb
    score := best_score
    start_a := t.stopI
    end_a := bp.2.1
    start_b := t.stopJ
    end_b := bp.2.2
    identity := identity
    penalty_similarity := penalty_similarity
    norm_score := norm_score
    coverage := coverage }

/-! ## Chunked alignment driver (src/lab11/ex2.py `chunked_alignment`) -/

/-- Rebasing of a window result: `res.start_a += offset` etc. -/
def rebase (r : LocalAlignment) (offset : Nat) : LocalAlignment :=
  { r with
    start_a := r.start_a + offset
    end_a := r.end_a + offset
    start_b := r.start_b + offset
    end_b := r.end_b + offset }

/-- The `while offset < max_pos` loop of `chunked_alignment`, with
`cs = chunk_size`, `step = chunk_size - overlap` (already validated,
so the reachable calls have `0 < step`), and an explicit bound `fuel`
on the number of iterations (each iteration advances `offset` by
`step ≥ 1`, so `fuel = max_pos - offset` is enough; the fuel-0
fallback is unreachable from `chunked_alignment`). -/
def chunkLoopAux (ga gb : List Char) (cs step : Nat) (mt mm gp : Int) :
    Nat → Nat → List LocalAlignment
  | fuel, offset =>
    if offset < min ga.length gb.length then
      match fuel with
      | 0 => []
      | fuel + 1 =>
        let wa := (ga.drop offset).take cs
        let wb := (gb.drop offset).take cs
        if wa = [] ∨ wb = [] then []
        else
          rebase (smith_waterman wa wb mt mm gp) offset ::
            chunkLoopAux ga gb cs step mt mm gp fuel (offset + step)
    else []

/-- The `while offset < max_pos` loop of `chunked_alignment`, started
at `offset`. -/
def chunkLoop (ga gb : List Char) (cs step : Nat) (mt mm gp : Int)
    (offset : Nat) : List LocalAlignment :=
  chunkLoopAux ga gb cs step mt mm gp (min ga.length gb.length - offset) offset

/-- Chunked local alignment, ex2.py `chunked_alignment`.  The
`raise ValueError` is embedded as `Except.error` with the source's
message. -/
def chunked_alignment (genome_a genome_b : List Char) (chunk_size overlap : Int)
    (mt mm gp : Int) : Except String (List LocalAlignment) :=
  if chunk_size ≤ 0 ∨ overlap < 0 ∨ overlap ≥ chunk_size then
    Except.error "chunk_size must be >0 and overlap in [0, chunk_size)"
  else
    Except.ok (chunkLoop genome_a genome_b chunk_size.toNat
      (chunk_size - overlap).toNat mt mm gp 0)

/-! ## Basic recurrence and unfolding lemmas -/

/-- The global recurrence at an interior cell. -/
theorem nwScore_succ_succ (seq1 seq2 : List Char) (ms mms gp : Int) (i j : Nat) :
    nwScore seq1 seq2 ms mms gp (i + 1) (j + 1) =
      max (nwDiag seq1 seq2 ms mms gp i j)
        (max (nwUp seq1 seq2 ms mms gp i j) (nwLeft seq1 seq2 ms mms gp i j)) := rfl

/-- The local recurrence at an interior cell. -/
theorem swScore_succ_succ (a b : List Char) (mt mm gp : Int) (i j : Nat) :
    swScore a b mt mm gp (i + 1) (j + 1) =
      max 0 (max (swDiag a b mt mm gp i j)
        (max (swUp a b mt mm gp i j) (swLeft a b mt mm gp i j))) := rfl

/-- Row 0 of the local matrix is zero. -/
theorem swScore_zero_row (a b : List Char) (mt mm gp : Int) (j : Nat) :
    swScore a b mt mm gp 0 j = 0 := rfl

/-- Column 0 of the local matrix is zero. -/
theorem swScore_zero_col (a b : List Char) (mt mm gp : Int) (i : Nat) :
    swScore a b mt mm gp i 0 = 0 := by
  cases i <;> rfl

/-- Every cell of the local matrix is nonnegative. -/
theorem swScore_nonneg (a b : List Char) (mt mm gp : Int) (i j : Nat) :
    0 ≤ swScore a b mt mm gp i j := by
  rcases i with _ | i
  · exact le_of_eq (swScore_zero_row a b mt mm gp j).symm
  · rcases j with _ | j
    · exact le_of_eq (swScore_zero_col a b mt mm gp (i + 1)).symm
    · rw [swScore_succ_succ]
      exact le_max_left _ _

/-- The fuel of `nwTraceAux` is irrelevant once it is at least
`i + j`. -/
theorem nwTraceAux_congr (seq1 seq2 : List Char) (ms mms gp : Int) :
    ∀ f g i j, i + j ≤ f → i + j ≤ g →
      nwTraceAux seq1 seq2 ms mms gp f i j = nwTraceAux seq1 seq2 ms mms gp g i j := by
  intro f
  induction f using Nat.strong_induction_on with
  | _ f ih =>
    intro g i j hf hg
    rcases i with _ | i
    · rcases j with _ | j
      · cases f <;> cases g <;> rfl
      · rcases f with _ | f
        · omega
        rcases g with _ | g
        · omega
        simp only [nwTraceAux]
        rw [ih f (by omega) g 0 j (by omega) (by omega)]
    · rcases j with _ | j
      · rcases f with _ | f
        · omega
        rcases g with _ | g
        · omega
        simp only [nwTraceAux]
        rw [ih f (by omega) g i 0 (by omega) (by omega)]
      · rcases f with _ | f
        · omega
        rcases g with _ | g
        · omega
        simp only [nwTraceAux]
        cases hp : nwPointer seq1 seq2 ms mms gp (i + 1) (j + 1) <;> simp only [hp]
        · rw [ih f (by omega) g (i + 1) j (by omega) (by omega)]
        · rw [ih f (by omega) g i j (by omega) (by omega)]
        · rw [ih f (by omega) g i (j + 1) (by omega) (by omega)]
        · rw [ih f (by omega) g (i + 1) j (by omega) (by omega)]

/-- Any fuel at least `i + j` computes the global traceback. -/
theorem nwTraceAux_eq (seq1 seq2 : List Char) (ms mms gp : Int)
    (fuel i j : Nat) (h : i + j ≤ fuel) :
    nwTraceAux seq1 seq2 ms mms gp fuel i j = nwTrace seq1 seq2 ms mms gp i j :=
  nwTraceAux_congr seq1 seq2 ms mms gp fuel (i + j) i j h le_rfl

/-- An interior pointer of the global matrix is never the empty
marker. -/
theorem nwPointer_succ_ne_none (seq1 seq2 : List Char) (ms mms gp : Int) (i j : Nat) :
    nwPointer seq1 seq2 ms mms gp (i + 1) (j + 1) ≠ Dir.none := by
  simp only [nwPointer]
  split_ifs <;> simp

/-- Global traceback at the top-left corner. -/
theorem nwTrace_zero (seq1 seq2 : List Char) (ms mms gp : Int) :
    nwTrace seq1 seq2 ms mms gp 0 0 = ([], []) := rfl

/-- Global traceback on the left border. -/
theorem nwTrace_succ_zero (seq1 seq2 : List Char) (ms mms gp : Int) (i : Nat) :
    nwTrace seq1 seq2 ms mms gp (i + 1) 0 =
      ((nwTrace seq1 seq2 ms mms gp i 0).1 ++ [seq1.getD i ' '],
        (nwTrace seq1 seq2 ms mms gp i 0).2 ++ ['-']) := rfl

/-- Global traceback on the top border. -/
theorem nwTrace_zero_succ (seq1 seq2 : List Char) (ms mms gp : Int) (j : Nat) :
    nwTrace seq1 seq2 ms mms gp 0 (j + 1) =
      ((nwTrace seq1 seq2 ms mms gp 0 j).1 ++ ['-'],
        (nwTrace seq1 seq2 ms mms gp 0 j).2 ++ [seq2.getD j ' ']) := rfl

/-- Global traceback at an interior cell whose pointer is diag. -/
theorem nwTrace_succ_diag (seq1 seq2 : List Char) (ms mms gp : Int) (i j : Nat)
    (hp : nwPointer seq1 seq2 ms mms gp (i + 1) (j + 1) = Dir.diag) :
    nwTrace seq1 seq2 ms mms gp (i + 1) (j + 1) =
      ((nwTrace seq1 seq2 ms mms gp i j).1 ++ [seq1.getD i ' '],
        (nwTrace seq1 seq2 ms mms gp i j).2 ++ [seq2.getD j ' ']) := by
  rw [show nwTrace seq1 seq2 ms mms gp (i + 1) (j + 1) =
      nwTraceAux seq1 seq2 ms mms gp ((i + j + 1) + 1) (i + 1) (j + 1) from
    (nwTraceAux_eq seq1 seq2 ms mms gp ((i + j + 1) + 1) (i + 1) (j + 1) (by omega)).symm]
  simp only [nwTraceAux, hp]
  rw [nwTraceAux_eq seq1 seq2 ms mms gp (i + j + 1) i j (by omega)]

/-- Global traceback at an interior cell whose pointer is up. -/
theorem nwTrace_succ_up (seq1 seq2 : List Char) (ms mms gp : Int) (i j : Nat)
    (hp : nwPointer seq1 seq2 ms mms gp (i + 1) (j + 1) = Dir.up) :
    nwTrace seq1 seq2 ms mms gp (i + 1) (j + 1) =
      ((nwTrace seq1 seq2 ms mms gp i (j + 1)).1 ++ [seq1.getD i ' '],
        (nwTrace seq1 seq2 ms mms gp i (j + 1)).2 ++ ['-']) := by
  rw [show nwTrace seq1 seq2 ms mms gp (i + 1) (j + 1) =
      nwTraceAux seq1 seq2 ms mms gp ((i + j + 1) + 1) (i + 1) (j + 1) from
    (nwTraceAux_eq seq1 seq2 ms mms gp ((i + j + 1) + 1) (i + 1) (j + 1) (by omega)).symm]
  simp only [nwTraceAux, hp]
  rw [nwTraceAux_eq seq1 seq2 ms mms gp (i + j + 1) i (j + 1) (by omega)]

/-- Global traceback at an interior cell whose pointer is left (the
`else` branch of the move dispatch). -/
theorem nwTrace_succ_left (seq1 seq2 : List Char) (ms mms gp : Int) (i j : Nat)
    (hp : nwPointer seq1 seq2 ms mms gp (i + 1) (j + 1) = Dir.left) :
    nwTrace seq1 seq2 ms mms gp (i + 1) (j + 1) =
      ((nwTrace seq1 seq2 ms mms gp (i + 1) j).1 ++ ['-'],
        (nwTrace seq1 seq2 ms mms gp (i + 1) j).2 ++ [seq2.getD j ' ']) := by
  rw [show nwTrace seq1 seq2 ms mms gp (i + 1) (j + 1) =
      nwTraceAux seq1 seq2 ms mms gp ((i + j + 1) + 1) (i + 1) (j + 1) from
    (nwTraceAux_eq seq1 seq2 ms mms gp ((i + j + 1) + 1) (i + 1) (j + 1) (by omega)).symm]
  simp only [nwTraceAux, hp]
  rw [nwTraceAux_eq seq1 seq2 ms mms gp (i + j + 1) (i + 1) j (by omega)]

/-- The fuel of `swTraceAux` is irrelevant once it is at least
`i + j`. -/
theorem swTraceAux_congr (a b : List Char) (mt mm gp : Int) :
    ∀ f g i j, i + j ≤ f → i + j ≤ g →
      swTraceAux a b mt mm gp f i j = swTraceAux a b mt mm gp g i j := by
  intro f
  induction f using Nat.strong_induction_on with
  | _ f ih =>
    intro g i j hf hg
    unfold swTraceAux
    by_cases h : i = 0 ∨ j = 0 ∨ swScore a b mt mm gp i j ≤ 0
    · rw [if_pos h, if_pos h]
    · rw [if_neg h, if_neg h]
      push_neg at h
      obtain ⟨hi, hj, _⟩ := h
      rcases f with _ | f
      · omega
      rcases g with _ | g
      · omega
      rcases hp : swPointer a b mt mm gp i j with _ | _ | _ | n <;> simp only [hp]
      · rw [ih f (by omega) g i (j - 1) (by omega) (by omega)]
      · rw [ih f (by omega) g (i - 1) (j - 1) (by omega) (by omega)]
      · rw [ih f (by omega) g (i - 1) j (by omega) (by omega)]
      · rw [ih f (by omega) g i (j - 1) (by omega) (by omega)]

/-- Any fuel at least `i + j` computes the local traceback. -/
theorem swTraceAux_eq (a b : List Char) (mt mm gp : Int)
    (fuel i j : Nat) (h : i + j ≤ fuel) :
    swTraceAux a b mt mm gp fuel i j = swTrace a b mt mm gp i j :=
  swTraceAux_congr a b mt mm gp fuel (i + j) i j h le_rfl

/-- Local traceback stops at the border or at a non-positive cell. -/
theorem swTrace_stop (a b : List Char) (mt mm gp : Int) (i j : Nat)
    (h : i = 0 ∨ j = 0 ∨ swScore a b mt mm gp i j ≤ 0) :
    swTrace a b mt mm gp i j = ⟨[], [], i, j⟩ := by
  rw [swTrace]
  unfold swTraceAux
  rw [if_pos h]

/-- Local traceback step on a diag move. -/
theorem swTrace_step_diag (a b : List Char) (mt mm gp : Int) (i j : Nat)
    (hi : i ≠ 0) (hj : j ≠ 0) (hsc : 0 < swScore a b mt mm gp i j)
    (hp : swPointer a b mt mm gp i j = 1) :
    swTrace a b mt mm gp i j =
      ⟨(swTrace a b mt mm gp (i - 1) (j - 1)).alignedA ++ [a.getD (i - 1) ' '],
        (swTrace a b mt mm gp (i - 1) (j - 1)).alignedB ++ [b.getD (j - 1) ' '],
        (swTrace a b mt mm gp (i - 1) (j - 1)).stopI,
        (swTrace a b mt mm gp (i - 1) (j - 1)).stopJ⟩ := by
  rw [show swTrace a b mt mm gp i j = swTraceAux a b mt mm gp ((i + j - 1) + 1) i j from
    (swTraceAux_eq a b mt mm gp ((i + j - 1) + 1) i j (by omega)).symm]
  unfold swTraceAux
  rw [if_neg (by push_neg; exact ⟨hi, hj, by omega⟩)]
  simp only [hp]
  rw [swTraceAux_eq a b mt mm gp (i + j - 1) (i - 1) (j - 1) (by omega)]

/-- Local traceback step on an up move. -/
theorem swTrace_step_up (a b : List Char) (mt mm gp : Int) (i j : Nat)
    (hi : i ≠ 0) (hj : j ≠ 0) (hsc : 0 < swScore a b mt mm gp i j)
    (hp : swPointer a b mt mm gp i j = 2) :
    swTrace a b mt mm gp i j =
      ⟨(swTrace a b mt mm gp (i - 1) j).alignedA ++ [a.getD (i - 1) ' '],
        (swTrace a b mt mm gp (i - 1) j).alignedB ++ ['-'],
        (swTrace a b mt mm gp (i - 1) j).stopI,
        (swTrace a b mt mm gp (i - 1) j).stopJ⟩ := by
  rw [show swTrace a b mt mm gp i j = swTraceAux a b mt mm gp ((i + j - 1) + 1) i j from
    (swTraceAux_eq a b mt mm gp ((i + j - 1) + 1) i j (by omega)).symm]
  unfold swTraceAux
  rw [if_neg (by push_neg; exact ⟨hi, hj, by omega⟩)]
  simp only [hp]
  rw [swTraceAux_eq a b mt mm gp (i + j - 1) (i - 1) j (by omega)]

/-- Local traceback step on any other move (the `else` branch). -/
theorem swTrace_step_other (a b : List Char) (mt mm gp : Int) (i j : Nat)
    (hi : i ≠ 0) (hj : j ≠ 0) (hsc : 0 < swScore a b mt mm gp i j)
    (hp1 : swPointer a b mt mm gp i j ≠ 1) (hp2 : swPointer a b mt mm gp i j ≠ 2) :
    swTrace a b mt mm gp i j =
      ⟨(swTrace a b mt mm gp i (j - 1)).alignedA ++ ['-'],
        (swTrace a b mt mm gp i (j - 1)).alignedB ++ [b.getD (j - 1) ' '],
        (swTrace a b mt mm gp i (j - 1)).stopI,
        (swTrace a b mt mm gp i (j - 1)).stopJ⟩ := by
  rw [show swTrace a b mt mm gp i j = swTraceAux a b mt mm gp ((i + j - 1) + 1) i j from
    (swTraceAux_eq a b mt mm gp ((i + j - 1) + 1) i j (by omega)).symm]
  unfold swTraceAux
  rw [if_neg (by push_neg; exact ⟨hi, hj, by omega⟩)]
  rcases hp : swPointer a b mt mm gp i j with _ | _ | _ | n
  · simp only
    rw [swTraceAux_eq a b mt mm gp (i + j - 1) i (j - 1) (by omega)]
  · exact absurd hp hp1
  · exact absurd hp hp2
  · simp only
    rw [swTraceAux_eq a b mt mm gp (i + j - 1) i (j - 1) (by omega)]

/-- The fuel of `chunkLoopAux` is irrelevant once it is at least
`max_pos - offset` (for a positive step, the validated case). -/
theorem chunkLoopAux_congr (ga gb : List Char) (cs step : Nat) (mt mm gp : Int)
    (hstep : 0 < step) :
    ∀ f g offset, min ga.length gb.length - offset ≤ f →
      min ga.length gb.length - offset ≤ g →
      chunkLoopAux ga gb cs step mt mm gp f offset =
        chunkLoopAux ga gb cs step mt mm gp g offset := by
  intro f
  induction f using Nat.strong_induction_on with
  | _ f ih =>
    intro g offset hf hg
    unfold chunkLoopAux
    by_cases h : offset < min ga.length gb.length
    · rw [if_pos h, if_pos h]
      rcases f with _ | f
      · omega
      rcases g with _ | g
      · omega
      simp only
      by_cases hw : (ga.drop offset).take cs = [] ∨ (gb.drop offset).take cs = []
      · rw [if_pos hw, if_pos hw]
      · rw [if_neg hw, if_neg hw]
        rw [ih f (by omega) g (offset + step) (by omega) (by omega)]
    · rw [if_neg h, if_neg h]

/-- Any fuel at least `max_pos - offset` computes the chunk loop. -/
theorem chunkLoopAux_eq (ga gb : List Char) (cs step : Nat) (mt mm gp : Int)
    (hstep : 0 < step) (fuel offset : Nat)
    (h : min ga.length gb.length - offset ≤ fuel) :
    chunkLoopAux ga gb cs step mt mm gp fuel offset =
      chunkLoop ga gb cs step mt mm gp offset :=
  chunkLoopAux_congr ga gb cs step mt mm gp hstep fuel
    (min ga.length gb.length - offset) offset h le_rfl

/-- The chunk loop stops once `offset` reaches `max_pos`. -/
theorem chunkLoop_stop (ga gb : List Char) (cs step : Nat) (mt mm gp : Int)
    (offset : Nat) (h : ¬ offset < min ga.length gb.length) :
    chunkLoop ga gb cs step mt mm gp offset = [] := by
  rw [chunkLoop]
  unfold chunkLoopAux
  rw [if_neg h]

/-- One iteration of the chunk loop while `offset < max_pos`. -/
theorem chunkLoop_step (ga gb : List Char) (cs step : Nat) (mt mm gp : Int)
    (offset : Nat) (hstep : 0 < step) (h : offset < min ga.length gb.length) :
    chunkLoop ga gb cs step mt mm gp offset =
      (if (ga.drop offset).take cs = [] ∨ (gb.drop offset).take cs = [] then []
       else
         rebase (smith_waterman ((ga.drop offset).take cs) ((gb.drop offset).take cs)
             mt mm gp) offset ::
           chunkLoop ga gb cs step mt mm gp (offset + step)) := by
  rw [show chunkLoop ga gb cs step mt mm gp offset =
      chunkLoopAux ga gb cs step mt mm gp
        ((min ga.length gb.length - offset - 1) + 1) offset from
    (chunkLoopAux_eq ga gb cs step mt mm gp hstep _ offset (by omega)).symm]
  unfold chunkLoopAux
  rw [if_pos h]
  simp only
  by_cases hw : (ga.drop offset).take cs = [] ∨ (gb.drop offset).take cs = []
  · rw [if_pos hw, if_pos hw]
  · rw [if_neg hw, if_neg hw,
      chunkLoopAux_eq ga gb cs step mt mm gp hstep _ (offset + step) (by omega)]

/-! ## The running maximum of the local matrix scan -/

/-- The row-major order is irreflexive. -/
theorem rmLt_irrefl (c : Nat × Nat) : ¬ rmLt c c := by
  unfold rmLt; omega

/-- No coordinate is scanned before `(0, 0)`. -/
theorem rmLt_zero (c : Nat × Nat) : ¬ rmLt c (0, 0) := by
  unfold rmLt; omega

/-- The running maximum never decreases along the scan. -/
theorem bestStep_foldl_grow (sc : Nat × Nat → Int) :
    ∀ (l : List (Nat × Nat)) (acc : Int × (Nat × Nat)),
      acc.1 ≤ (l.foldl (bestStep sc) acc).1 := by
  intro l
  induction l with
  | nil => intro acc; exact le_rfl
  | cons d l ih =>
    intro acc
    refine le_trans ?_ (ih (bestStep sc acc d))
    unfold bestStep
    split_ifs with h
    · exact le_of_lt h
    · exact le_rfl

/-- The running maximum dominates every scanned cell. -/
theorem bestStep_foldl_le (sc : Nat × Nat → Int) :
    ∀ (l : List (Nat × Nat)) (acc : Int × (Nat × Nat)) (c : Nat × Nat),
      c ∈ l → sc c ≤ (l.foldl (bestStep sc) acc).1 := by
  intro l
  induction l with
  | nil => intro acc c hc; cases hc
  | cons d l ih =>
    intro acc c hc
    rcases List.mem_cons.mp hc with rfl | hc
    · refine le_trans ?_ (bestStep_foldl_grow sc l (bestStep sc acc c))
      unfold bestStep
      split_ifs with h
      · exact le_rfl
      · omega
    · exact ih (bestStep sc acc d) c hc

/-- A scan over cells that never beat the accumulator leaves it
unchanged (the `if best > best_score` update never fires). -/
theorem bestStep_foldl_const (sc : Nat × Nat → Int) :
    ∀ (l : List (Nat × Nat)) (acc : Int × (Nat × Nat)),
      (∀ c ∈ l, sc c ≤ acc.1) → l.foldl (bestStep sc) acc = acc := by
  intro l
  induction l with
  | nil => intro acc _; rfl
  | cons d l ih =>
    intro acc h
    have hd : bestStep sc acc d = acc := by
      unfold bestStep
      rw [if_neg (by push_neg; exact h d (List.mem_cons_self d l))]
    rw [List.foldl_cons, hd]
    exact ih acc (fun c hc => h c (List.mem_cons_of_mem d hc))

/-- Full characterization of the scan's result: the kept position
attains the running maximum, lies in the scanned list (or is the
initial one), every cell scanned strictly before it scores strictly
below the maximum, and if the position moved the maximum strictly
grew. -/
theorem bestStep_foldl_spec (sc : Nat × Nat → Int) :
    ∀ (l : List (Nat × Nat)) (acc : Int × (Nat × Nat)),
      sc acc.2 = acc.1 → (∀ c ∈ l, rmLt acc.2 c) → l.Pairwise rmLt →
      sc (l.foldl (bestStep sc) acc).2 = (l.foldl (bestStep sc) acc).1 ∧
      ((l.foldl (bestStep sc) acc).2 = acc.2 ∨ (l.foldl (bestStep sc) acc).2 ∈ l) ∧
      (∀ c ∈ l, rmLt c (l.foldl (bestStep sc) acc).2 →
        sc c < (l.foldl (bestStep sc) acc).1) ∧
      ((l.foldl (bestStep sc) acc).2 ≠ acc.2 → acc.1 < (l.foldl (bestStep sc) acc).1) := by
  intro l
  induction l with
  | nil =>
    intro acc hacc _ _
    exact ⟨hacc, Or.inl rfl, fun c hc => absurd hc (List.not_mem_nil c),
      fun hne => absurd rfl hne⟩
  | cons d l ih =>
    intro acc hacc hl hp
    have hltail : ∀ c ∈ l, rmLt acc.2 c := fun c hc => hl c (List.mem_cons_of_mem d hc)
    have hphead : ∀ c ∈ l, rmLt d c := (List.pairwise_cons.mp hp).1
    have hptail : l.Pairwise rmLt := (List.pairwise_cons.mp hp).2
    rw [List.foldl_cons]
    by_cases hupd : sc d > acc.1
    · have hstep : bestStep sc acc d = (sc d, d) := by
        unfold bestStep; rw [if_pos hupd]
      rw [hstep]
      obtain ⟨h1, h2, h3, h4⟩ := ih (sc d, d) rfl hphead hptail
      refine ⟨h1, ?_, ?_, ?_⟩
      · rcases h2 with h2 | h2
        · exact Or.inr (h2 ▸ List.mem_cons_self d l)
        · exact Or.inr (List.mem_cons_of_mem d h2)
      · intro c hc hcr
        rcases List.mem_cons.mp hc with rfl | hc
        · have hne : (l.foldl (bestStep sc) (sc c, c)).2 ≠ c := by
            intro he
            rw [he] at hcr
            exact rmLt_irrefl c hcr
          calc sc c < (l.foldl (bestStep sc) (sc c, c)).1 := h4 hne
            _ ≤ _ := le_rfl
        · exact h3 c hc hcr
      · intro _
        calc acc.1 < sc d := hupd
          _ ≤ (l.foldl (bestStep sc) (sc d, d)).1 := bestStep_foldl_grow sc l (sc d, d)
    · have hstep : bestStep sc acc d = acc := by
        unfold bestStep; rw [if_neg hupd]
      rw [hstep]
      obtain ⟨h1, h2, h3, h4⟩ := ih acc hacc hltail hptail
      refine ⟨h1, ?_, ?_, h4⟩
      · rcases h2 with h2 | h2
        · exact Or.inl h2
        · exact Or.inr (List.mem_cons_of_mem d h2)
      · intro c hc hcr
        rcases List.mem_cons.mp hc with rfl | hc
        · rcases h2 with h2 | h2
          · rw [h2] at hcr
            exact absurd (hl c (List.mem_cons_self c l)) (by unfold rmLt at hcr ⊢; omega)
          · have hne : (l.foldl (bestStep sc) acc).2 ≠ acc.2 := by
              intro he
              exact rmLt_irrefl acc.2 (he ▸ hltail _ h2)
            calc sc c ≤ acc.1 := by omega
              _ < _ := h4 hne
        · exact h3 c hc hcr

/-- Membership in the row-major interior cell list. -/
theorem mem_swCells (na nb : Nat) (c : Nat × Nat) :
    c ∈ swCells na nb ↔ 1 ≤ c.1 ∧ c.1 ≤ na ∧ 1 ≤ c.2 ∧ c.2 ≤ nb := by
  rcases c with ⟨i, j⟩
  simp only [swCells, List.mem_flatMap, List.mem_map, List.mem_range]
  constructor
  · rintro ⟨x, hx, y, hy, he⟩
    cases he
    omega
  · rintro ⟨h1, h2, h3, h4⟩
    exact ⟨i - 1, by omega, ⟨j - 1, by omega, by simp only [Prod.mk.injEq]; omega⟩⟩

/-- The interior cell list is sorted in row-major order. -/
theorem pairwise_swCells (na nb : Nat) : (swCells na nb).Pairwise rmLt := by
  induction na with
  | zero =>
    rw [show swCells 0 nb = ([] : List (Nat × Nat)) from rfl]
    exact List.Pairwise.nil
  | succ na ih =>
    have hsplit : swCells (na + 1) nb =
        swCells na nb ++ (List.range nb).map (fun j => (na + 1, j + 1)) := by
      unfold swCells
      rw [List.range_succ, List.flatMap_append]
      simp
    rw [hsplit, List.pairwise_append]
    refine ⟨ih, ?_, ?_⟩
    · rw [List.pairwise_map]
      exact (List.pairwise_lt_range nb).imp (fun h => by unfold rmLt; omega)
    · intro x hx y hy
      rw [mem_swCells] at hx
      simp only [List.mem_map, List.mem_range] at hy
      obtain ⟨j, _, rfl⟩ := hy
      unfold rmLt
      omega

/-- Every cell of the dead list is scanned after the origin. -/
theorem rmLt_zero_swCells (na nb : Nat) :
    ∀ c ∈ swCells na nb, rmLt (0, 0) c := by
  intro c hc
  rw [mem_swCells] at hc
  unfold rmLt
  omega

/-- The tracked best score dominates every interior cell. -/
theorem swBest_ge (a b : List Char) (mt mm gp : Int) (c : Nat × Nat)
    (hc : c ∈ swCells a.length b.length) :
    swScore a b mt mm gp c.1 c.2 ≤ (swBest a b mt mm gp).1 :=
  bestStep_foldl_le (fun c => swScore a b mt mm gp c.1 c.2)
    (swCells a.length b.length) (0, (0, 0)) c hc

/-- The tracked best score is nonnegative. -/
theorem swBest_nonneg (a b : List Char) (mt mm gp : Int) :
    0 ≤ (swBest a b mt mm gp).1 :=
  bestStep_foldl_grow (fun c => swScore a b mt mm gp c.1 c.2)
    (swCells a.length b.length) (0, (0, 0))

/-- Characterization of `(best_score, best_pos)`: the kept position
scores the maximum, is the origin or an interior cell, every cell
strictly earlier in row-major order scores strictly less, and if the
position moved off the origin the maximum is positive. -/
theorem swBest_spec (a b : List Char) (mt mm gp : Int) :
    swScore a b mt mm gp (swBest a b mt mm gp).2.1 (swBest a b mt mm gp).2.2 =
      (swBest a b mt mm gp).1 ∧
    ((swBest a b mt mm gp).2 = (0, 0) ∨
      (swBest a b mt mm gp).2 ∈ swCells a.length b.length) ∧
    (∀ c ∈ swCells a.length b.length, rmLt c (swBest a b mt mm gp).2 →
      swScore a b mt mm gp c.1 c.2 < (swBest a b mt mm gp).1) ∧
    ((swBest a b mt mm gp).2 ≠ (0, 0) → 0 < (swBest a b mt mm gp).1) :=
  bestStep_foldl_spec (fun c => swScore a b mt mm gp c.1 c.2)
    (swCells a.length b.length) (0, (0, 0)) rfl
    (rmLt_zero_swCells a.length b.length) (pairwise_swCells a.length b.length)

/-! ## Field projections of the aligners' results -/

/-- The first aligned string returned by the global aligner. -/
theorem nw_aligned_seq1 (seq1 seq2 : List Char) (ms mms gp : Int) :
    (needleman_wunsch seq1 seq2 ms mms gp).aligned_seq1 =
      (nwTrace seq1 seq2 ms mms gp seq1.length seq2.length).1 := rfl

/-- The second aligned string returned by the global aligner. -/
theorem nw_aligned_seq2 (seq1 seq2 : List Char) (ms mms gp : Int) :
    (needleman_wunsch seq1 seq2 ms mms gp).aligned_seq2 =
      (nwTrace seq1 seq2 ms mms gp seq1.length seq2.length).2 := rfl

/-- The similarity metric returned by the global aligner. -/
theorem nw_similarity (seq1 seq2 : List Char) (ms mms gp : Int) :
    (needleman_wunsch seq1 seq2 ms mms gp).similarity =
      (if (nwTrace seq1 seq2 ms mms gp seq1.length seq2.length).1.length = 0 then 0
       else 100 *
        (((nwTrace seq1 seq2 ms mms gp seq1.length seq2.length).1.zip
            (nwTrace seq1 seq2 ms mms gp seq1.length seq2.length).2).countP
              (fun p => p.1 == p.2) : ℚ) /
        ((nwTrace seq1 seq2 ms mms gp seq1.length seq2.length).1.length : ℚ)) := rfl

/-- The score returned by the local aligner is the tracked maximum. -/
theorem sw_score (a b : List Char) (mt mm gp : Int) :
    (smith_waterman a b mt mm gp).score = (swBest a b mt mm gp).1 := rfl

/-- The local traceback starts at the tracked best position. -/
theorem sw_end (a b : List Char) (mt mm gp : Int) :
    (smith_waterman a b mt mm gp).end_a = (swBest a b mt mm gp).2.1 ∧
    (smith_waterman a b mt mm gp).end_b = (swBest a b mt mm gp).2.2 := ⟨rfl, rfl⟩

/-- The first aligned string returned by the local aligner. -/
theorem sw_aligned_a (a b : List Char) (mt mm gp : Int) :
    (smith_waterman a b mt mm gp).aligned_a =
      (swTrace a b mt mm gp (swBest a b mt mm gp).2.1
        (swBest a b mt mm gp).2.2).alignedA := rfl

/-- The second aligned string returned by the local aligner. -/
theorem sw_aligned_b (a b : List Char) (mt mm gp : Int) :
    (smith_waterman a b mt mm gp).aligned_b =
      (swTrace a b mt mm gp (swBest a b mt mm gp).2.1
        (swBest a b mt mm gp).2.2).alignedB := rfl

/-- The start coordinates returned by the local aligner. -/
theorem sw_start (a b : List Char) (mt mm gp : Int) :
    (smith_waterman a b mt mm gp).start_a =
      (swTrace a b mt mm gp (swBest a b mt mm gp).2.1
        (swBest a b mt mm gp).2.2).stopI ∧
    (smith_waterman a b mt mm gp).start_b =
      (swTrace a b mt mm gp (swBest a b mt mm gp).2.1
        (swBest a b mt mm gp).2.2).stopJ := ⟨rfl, rfl⟩

/-- The normalized score returned by the local aligner, as computed
from its aligned strings. -/
theorem sw_norm_score (a b : List Char) (mt mm gp : Int) :
    (smith_waterman a b mt mm gp).norm_score =
      (if (smith_waterman a b mt mm gp).aligned_a.length = 0 then 0
       else 100 * (swPosScore (smith_waterman a b mt mm gp).aligned_a
           (smith_waterman a b mt mm gp).aligned_b mt mm gp : ℚ) /
         (((smith_waterman a b mt mm gp).aligned_a.length : ℚ) *
           ((max mt 1 : Int) : ℚ))) := rfl

/-! ## Claims -/

/-- C7: `chunked_alignment` fails (with the `InvalidParameter`
condition, embedded as `Except.error`) exactly when `chunk_size ≤ 0`
or `overlap < 0` or `overlap ≥ chunk_size`; in the error case nothing
is computed and no partial result is emitted, in the other case a
plain `Except.ok` list is returned. -/
theorem claim_C7_invalid_params (ga gb : List Char) (cs ov mt mm gp : Int) :
    (∃ e, chunked_alignment ga gb cs ov mt mm gp = Except.error e) ↔
      cs ≤ 0 ∨ ov < 0 ∨ ov ≥ cs := by
  unfold chunked_alignment
  by_cases h : cs ≤ 0 ∨ ov < 0 ∨ ov ≥ cs
  · rw [if_pos h]
    exact ⟨fun _ => h, fun _ => ⟨_, rfl⟩⟩
  · rw [if_neg h]
    constructor
    · rintro ⟨e, he⟩
      exact Except.noConfusion he
    · intro hc
      exact absurd hc h

/-- Witness for C7 at the spec's concrete scenario
`chunk_size = 5, overlap = 5`. -/
theorem claim_C7_witness :
    ∃ e, chunked_alignment ['A'] ['C'] 5 5 2 (-1) (-2) = Except.error e :=
  (claim_C7_invalid_params ['A'] ['C'] 5 5 2 (-1) (-2)).mpr (by decide)

/-- C2 (amended): the local aligner's `norm_score` is 0 when the
aligned length `L` is 0, and otherwise equals
`100 * pos_score / (L * max(match_score, 1))`; when `match_score ≥ 1`
this is the spec's `100 * pos_score / (L * match_score)`, but when
`match_score ≤ 0` and `L > 0` the divisor is `L * 1` (the source's
`max(match, 1)` guard), not the spec's constant 0. -/
theorem claim_C2_norm_score (a b : List Char) (mt mm gp : Int) :
    ((smith_waterman a b mt mm gp).aligned_a.length = 0 →
      (smith_waterman a b mt mm gp).norm_score = 0) ∧
    ((smith_waterman a b mt mm gp).aligned_a.length ≠ 0 →
      (smith_waterman a b mt mm gp).norm_score =
        100 * (swPosScore (smith_waterman a b mt mm gp).aligned_a
            (smith_waterman a b mt mm gp).aligned_b mt mm gp : ℚ) /
          (((smith_waterman a b mt mm gp).aligned_a.length : ℚ) *
            ((max mt 1 : Int) : ℚ))) ∧
    (1 ≤ mt → (smith_waterman a b mt mm gp).aligned_a.length ≠ 0 →
      (smith_waterman a b mt mm gp).norm_score =
        100 * (swPosScore (smith_waterman a b mt mm gp).aligned_a
            (smith_waterman a b mt mm gp).aligned_b mt mm gp : ℚ) /
          (((smith_waterman a b mt mm gp).aligned_a.length : ℚ) * (mt : ℚ))) := by
  refine ⟨fun h => ?_, fun h => ?_, fun hmt h => ?_⟩
  · rw [sw_norm_score, if_pos h]
  · rw [sw_norm_score, if_neg h]
  · rw [sw_norm_score, if_neg h, max_eq_left hmt]

/-- Witness for C2 on a call with a nonempty alignment. -/
theorem claim_C2_witness :
    (smith_waterman ['A', 'C'] ['A', 'C'] 2 (-1) (-2)).norm_score =
      100 * (swPosScore (smith_waterman ['A', 'C'] ['A', 'C'] 2 (-1) (-2)).aligned_a
          (smith_waterman ['A', 'C'] ['A', 'C'] 2 (-1) (-2)).aligned_b 2 (-1) (-2) : ℚ) /
        (((smith_waterman ['A', 'C'] ['A', 'C'] 2 (-1) (-2)).aligned_a.length : ℚ) *
          ((2 : Int) : ℚ)) :=
  (claim_C2_norm_score ['A', 'C'] ['A', 'C'] 2 (-1) (-2)).2.2 (by decide) (by decide)

/-- Counterexample for C2 as stated: with `match_score = 0 ≤ 0`,
`mismatch_score = -1`, `gap_penalty = 1` on `"A"` vs `"B"`, the
aligned length is 1, yet `norm_score` is 100, not the 0 demanded by
the claim's `match_score ≤ 0` guard. -/
theorem claim_C2_counterexample :
    (smith_waterman ['A'] ['B'] 0 (-1) 1).norm_score = 100 ∧
    ¬ (smith_waterman ['A'] ['B'] 0 (-1) 1).norm_score = 0 := by
  have h := sw_norm_score ['A'] ['B'] 0 (-1) 1
  rw [show (smith_waterman ['A'] ['B'] 0 (-1) 1).aligned_a = ['A'] from by decide,
    show (smith_waterman ['A'] ['B'] 0 (-1) 1).aligned_b = ['-'] from by decide,
    show swPosScore ['A'] ['-'] 0 (-1) 1 = 1 from by decide,
    show max (0 : Int) 1 = 1 from rfl] at h
  norm_num at h
  rw [h]
  norm_num

/-- C3 (amended): in the global aligner every interior cell records
its direction by the fixed priority diag > up > left over
`best = max(diag, up, left)`; in the local aligner the same priority
applies over `best = max(0, diag, up, left)` whenever `best ≠ 0`, but
when `best = 0` the cell records the stop marker 0 even if the
maximum of the three candidates is the diagonal one. -/
theorem claim_C3_tiebreak (seq1 seq2 a b : List Char) (ms mms gp0 mt mm gp : Int)
    (i j : Nat) :
    ((max (nwDiag seq1 seq2 ms mms gp0 i j)
        (max (nwUp seq1 seq2 ms mms gp0 i j) (nwLeft seq1 seq2 ms mms gp0 i j)) =
          nwDiag seq1 seq2 ms mms gp0 i j →
        nwPointer seq1 seq2 ms mms gp0 (i + 1) (j + 1) = Dir.diag) ∧
     (max (nwDiag seq1 seq2 ms mms gp0 i j)
        (max (nwUp seq1 seq2 ms mms gp0 i j) (nwLeft seq1 seq2 ms mms gp0 i j)) ≠
          nwDiag seq1 seq2 ms mms gp0 i j →
      max (nwDiag seq1 seq2 ms mms gp0 i j)
        (max (nwUp seq1 seq2 ms mms gp0 i j) (nwLeft seq1 seq2 ms mms gp0 i j)) =
          nwUp seq1 seq2 ms mms gp0 i j →
        nwPointer seq1 seq2 ms mms gp0 (i + 1) (j + 1) = Dir.up) ∧
     (max (nwDiag seq1 seq2 ms mms gp0 i j)
        (max (nwUp seq1 seq2 ms mms gp0 i j) (nwLeft seq1 seq2 ms mms gp0 i j)) ≠
          nwDiag seq1 seq2 ms mms gp0 i j →
      max (nwDiag seq1 seq2 ms mms gp0 i j)
        (max (nwUp seq1 seq2 ms mms gp0 i j) (nwLeft seq1 seq2 ms mms gp0 i j)) ≠
          nwUp seq1 seq2 ms mms gp0 i j →
        nwPointer seq1 seq2 ms mms gp0 (i + 1) (j + 1) = Dir.left)) ∧
    ((max 0 (max (swDiag a b mt mm gp i j)
        (max (swUp a b mt mm gp i j) (swLeft a b mt mm gp i j))) = 0 →
        swPointer a b mt mm gp (i + 1) (j + 1) = 0) ∧
     (max 0 (max (swDiag a b mt mm gp i j)
        (max (swUp a b mt mm gp i j) (swLeft a b mt mm gp i j))) ≠ 0 →
      max 0 (max (swDiag a b mt mm gp i j)
        (max (swUp a b mt mm gp i j) (swLeft a b mt mm gp i j))) =
          swDiag a b mt mm gp i j →
        swPointer a b mt mm gp (i + 1) (j + 1) = 1) ∧
     (max 0 (max (swDiag a b mt mm gp i j)
        (max (swUp a b mt mm gp i j) (swLeft a b mt mm gp i j))) ≠ 0 →
      max 0 (max (swDiag a b mt mm gp i j)
        (max (swUp a b mt mm gp i j) (swLeft a b mt mm gp i j))) ≠
          swDiag a b mt mm gp i j →
      max 0 (max (swDiag a b mt mm gp i j)
        (max (swUp a b mt mm gp i j) (swLeft a b mt mm gp i j))) =
          swUp a b mt mm gp i j →
        swPointer a b mt mm gp (i + 1) (j + 1) = 2) ∧
     (max 0 (max (swDiag a b mt mm gp i j)
        (max (swUp a b mt mm gp i j) (swLeft a b mt mm gp i j))) ≠ 0 →
      max 0 (max (swDiag a b mt mm gp i j)
        (max (swUp a b mt mm gp i j) (swLeft a b mt mm gp i j))) ≠
          swDiag a b mt mm gp i j →
      max 0 (max (swDiag a b mt mm gp i j)
        (max (swUp a b mt mm gp i j) (swLeft a b mt mm gp i j))) ≠
          swUp a b mt mm gp i j →
        swPointer a b mt mm gp (i + 1) (j + 1) = 3)) := by
  constructor
  · simp only [nwPointer]
    refine ⟨fun h => ?_, fun h1 h2 => ?_, fun h1 h2 => ?_⟩
    · rw [if_pos h]
    · rw [if_neg h1, if_pos h2]
    · rw [if_neg h1, if_neg h2]
  · simp only [swPointer]
    refine ⟨fun h => ?_, fun h0 h => ?_, fun h0 h1 h2 => ?_, fun h0 h1 h2 => ?_⟩
    · rw [if_pos h]
    · rw [if_neg h0, if_pos h]
    · rw [if_neg h0, if_neg h1, if_pos h2]
    · rw [if_neg h0, if_neg h1, if_neg h2]

/-- Witness for C3 on a concrete interior cell of each aligner. -/
theorem claim_C3_witness :
    nwPointer ['A'] ['A'] 1 (-1) 0 1 1 = Dir.diag ∧
    swPointer ['A'] ['A'] 2 (-1) (-2) 1 1 = 1 :=
  ⟨(claim_C3_tiebreak ['A'] ['A'] ['A'] ['A'] 1 (-1) 0 2 (-1) (-2) 0 0).1.1 (by decide),
   (claim_C3_tiebreak ['A'] ['A'] ['A'] ['A'] 1 (-1) 0 2 (-1) (-2) 0 0).2.2.1
     (by decide) (by decide)⟩

/-- Counterexample for C3 as stated: on `"A"` vs `"B"` with
`match = 2, mismatch = 0, gap = -1`, at cell `(1,1)` the maximum of
the three candidates (0, -1, -1) is the diagonal candidate, yet the
local aligner records the stop marker 0, not the diagonal
direction. -/
theorem claim_C3_counterexample :
    max (swDiag ['A'] ['B'] 2 0 (-1) 0 0)
      (max (swUp ['A'] ['B'] 2 0 (-1) 0 0) (swLeft ['A'] ['B'] 2 0 (-1) 0 0)) =
      swDiag ['A'] ['B'] 2 0 (-1) 0 0 ∧
    swPointer ['A'] ['B'] 2 0 (-1) 1 1 = 0 ∧
    swPointer ['A'] ['B'] 2 0 (-1) 1 1 ≠ 1 := by decide

/-! ## Traceback invariants -/

/-- The two aligned lists of the global traceback have the same
length, and that length dominates both coordinates of the starting
cell. -/
theorem nwTrace_length (seq1 seq2 : List Char) (ms mms gp : Int) :
    ∀ n i j, i + j = n →
      (nwTrace seq1 seq2 ms mms gp i j).1.length =
        (nwTrace seq1 seq2 ms mms gp i j).2.length ∧
      i ≤ (nwTrace seq1 seq2 ms mms gp i j).1.length ∧
      j ≤ (nwTrace seq1 seq2 ms mms gp i j).1.length := by
  intro n
  induction n using Nat.strong_induction_on with
  | _ n ih =>
    intro i j hn
    rcases i with _ | i
    · rcases j with _ | j
      · simp [nwTrace_zero]
      · rw [nwTrace_zero_succ]
        obtain ⟨e1, e2, e3⟩ := ih j (by omega) 0 j (by omega)
        simp only [List.length_append, List.length_cons, List.length_nil]
        omega
    · rcases j with _ | j
      · rw [nwTrace_succ_zero]
        obtain ⟨e1, e2, e3⟩ := ih i (by omega) i 0 (by omega)
        simp only [List.length_append, List.length_cons, List.length_nil]
        omega
      · rcases hp : nwPointer seq1 seq2 ms mms gp (i + 1) (j + 1) with _ | _ | _ | _
        · exact absurd hp (nwPointer_succ_ne_none seq1 seq2 ms mms gp i j)
        · rw [nwTrace_succ_diag seq1 seq2 ms mms gp i j hp]
          obtain ⟨e1, e2, e3⟩ := ih (i + j) (by omega) i j rfl
          simp only [List.length_append, List.length_cons, List.length_nil]
          omega
        · rw [nwTrace_succ_up seq1 seq2 ms mms gp i j hp]
          obtain ⟨e1, e2, e3⟩ := ih (i + (j + 1)) (by omega) i (j + 1) rfl
          simp only [List.length_append, List.length_cons, List.length_nil]
          omega
        · rw [nwTrace_succ_left seq1 seq2 ms mms gp i j hp]
          obtain ⟨e1, e2, e3⟩ := ih ((i + 1) + j) (by omega) (i + 1) j rfl
          simp only [List.length_append, List.length_cons, List.length_nil]
          omega

/-- The two aligned lists of the local traceback have the same
length. -/
theorem swTrace_length (a b : List Char) (mt mm gp : Int) :
    ∀ n i j, i + j = n →
      (swTrace a b mt mm gp i j).alignedA.length =
        (swTrace a b mt mm gp i j).alignedB.length := by
  intro n
  induction n using Nat.strong_induction_on with
  | _ n ih =>
    intro i j hn
    by_cases h : i = 0 ∨ j = 0 ∨ swScore a b mt mm gp i j ≤ 0
    · rw [swTrace_stop a b mt mm gp i j h]
    · push_neg at h
      obtain ⟨hi, hj, hsc⟩ := h
      by_cases hp1 : swPointer a b mt mm gp i j = 1
      · rw [swTrace_step_diag a b mt mm gp i j hi hj (by omega) hp1]
        have e := ih ((i - 1) + (j - 1)) (by omega) (i - 1) (j - 1) rfl
        simp only [List.length_append, List.length_cons, List.length_nil]
        omega
      · by_cases hp2 : swPointer a b mt mm gp i j = 2
        · rw [swTrace_step_up a b mt mm gp i j hi hj (by omega) hp2]
          have e := ih ((i - 1) + j) (by omega) (i - 1) j rfl
          simp only [List.length_append, List.length_cons, List.length_nil]
          omega
        · rw [swTrace_step_other a b mt mm gp i j hi hj (by omega) hp1 hp2]
          have e := ih (i + (j - 1)) (by omega) i (j - 1) rfl
          simp only [List.length_append, List.length_cons, List.length_nil]
          omega

/-- C5: the aligned strings output by one call of either aligner have
equal lengths, and the global aligner's common length is at least
`max(len(seq1), len(seq2))`. -/
theorem claim_C5_aligned_lengths (seq1 seq2 : List Char) (ms mms gp0 : Int)
    (a b : List Char) (mt mm gp : Int) :
    ((needleman_wunsch seq1 seq2 ms mms gp0).aligned_seq1.length =
       (needleman_wunsch seq1 seq2 ms mms gp0).aligned_seq2.length ∧
     max seq1.length seq2.length ≤
       (needleman_wunsch seq1 seq2 ms mms gp0).aligned_seq1.length) ∧
    (smith_waterman a b mt mm gp).aligned_a.length =
      (smith_waterman a b mt mm gp).aligned_b.length := by
  constructor
  · rw [nw_aligned_seq1, nw_aligned_seq2]
    obtain ⟨e1, e2, e3⟩ :=
      nwTrace_length seq1 seq2 ms mms gp0 (seq1.length + seq2.length)
        seq1.length seq2.length rfl
    exact ⟨e1, by omega⟩
  · rw [sw_aligned_a, sw_aligned_b]
    exact swTrace_length a b mt mm gp _ _ _ rfl

/-- The global traceback reproduces, after dropping the gap symbol,
exactly the consumed prefixes of the two gap-free inputs. -/
theorem nwTrace_filter (seq1 seq2 : List Char) (ms mms gp : Int)
    (h1 : '-' ∉ seq1) (h2 : '-' ∉ seq2) :
    ∀ n i j, i + j = n → i ≤ seq1.length → j ≤ seq2.length →
      (nwTrace seq1 seq2 ms mms gp i j).1.filter (fun c => c != '-') = seq1.take i ∧
      (nwTrace seq1 seq2 ms mms gp i j).2.filter (fun c => c != '-') = seq2.take j := by
  intro n
  induction n using Nat.strong_induction_on with
  | _ n ih =>
    intro i j hn hi hj
    have hget1 : ∀ k, k < seq1.length → ¬ seq1[k]?.getD ' ' = '-' := by
      intro k hk
      rw [List.getElem?_eq_getElem hk]
      simp only [Option.getD_some]
      intro he
      exact h1 (he ▸ List.getElem_mem hk)
    have hget2 : ∀ k, k < seq2.length → ¬ seq2[k]?.getD ' ' = '-' := by
      intro k hk
      rw [List.getElem?_eq_getElem hk]
      simp only [Option.getD_some]
      intro he
      exact h2 (he ▸ List.getElem_mem hk)
    have htake1 : ∀ k, k < seq1.length →
        seq1.take (k + 1) = seq1.take k ++ [seq1.getD k ' '] := by
      intro k hk
      rw [List.getD_eq_getElem seq1 ' ' hk]
      rw [List.take_succ, List.getElem?_eq_getElem hk]
      rfl
    have htake2 : ∀ k, k < seq2.length →
        seq2.take (k + 1) = seq2.take k ++ [seq2.getD k ' '] := by
      intro k hk
      rw [List.getD_eq_getElem seq2 ' ' hk]
      rw [List.take_succ, List.getElem?_eq_getElem hk]
      rfl
    rcases i with _ | i
    · rcases j with _ | j
      · simp [nwTrace_zero]
      · rw [nwTrace_zero_succ]
        obtain ⟨e1, e2⟩ := ih j (by omega) 0 j (by omega) (by omega) (by omega)
        rw [htake2 j (by omega)]
        simp [List.filter_append, e1, e2]
        exact hget2 j (by omega)
    · rcases j with _ | j
      · rw [nwTrace_succ_zero]
        obtain ⟨e1, e2⟩ := ih i (by omega) i 0 (by omega) (by omega) (by omega)
        rw [htake1 i (by omega)]
        simp [List.filter_append, e1, e2]
        exact hget1 i (by omega)
      · rcases hp : nwPointer seq1 seq2 ms mms gp (i + 1) (j + 1) with _ | _ | _ | _
        · exact absurd hp (nwPointer_succ_ne_none seq1 seq2 ms mms gp i j)
        · rw [nwTrace_succ_diag seq1 seq2 ms mms gp i j hp]
          obtain ⟨e1, e2⟩ := ih (i + j) (by omega) i j rfl (by omega) (by omega)
          rw [htake1 i (by omega), htake2 j (by omega)]
          simp [List.filter_append, e1, e2]
          exact ⟨hget1 i (by omega), hget2 j (by omega)⟩
        · rw [nwTrace_succ_up seq1 seq2 ms mms gp i j hp]
          obtain ⟨e1, e2⟩ := ih (i + (j + 1)) (by omega) i (j + 1) rfl (by omega) (by omega)
          rw [htake1 i (by omega)]
          simp [List.filter_append, e1, e2]
          exact hget1 i (by omega)
        · rw [nwTrace_succ_left seq1 seq2 ms mms gp i j hp]
          obtain ⟨e1, e2⟩ := ih ((i + 1) + j) (by omega) (i + 1) j rfl (by omega) (by omega)
          rw [htake2 j (by omega)]
          simp [List.filter_append, e1, e2]
          exact hget2 j (by omega)

/-- C10 (amended): for gap-free inputs, removing all `'-'` characters
from the global aligner's `aligned_seq1` / `aligned_seq2` yields
exactly `seq1` / `seq2`. -/
theorem claim_C10_gap_removal (seq1 seq2 : List Char) (ms mms gp : Int)
    (h1 : '-' ∉ seq1) (h2 : '-' ∉ seq2) :
    (needleman_wunsch seq1 seq2 ms mms gp).aligned_seq1.filter (fun c => c != '-') =
      seq1 ∧
    (needleman_wunsch seq1 seq2 ms mms gp).aligned_seq2.filter (fun c => c != '-') =
      seq2 := by
  rw [nw_aligned_seq1, nw_aligned_seq2]
  obtain ⟨e1, e2⟩ := nwTrace_filter seq1 seq2 ms mms gp h1 h2
    (seq1.length + seq2.length) seq1.length seq2.length rfl le_rfl le_rfl
  rw [List.take_length] at e1 e2
  exact ⟨e1, e2⟩

/-- Witness for C10 on gap-free inputs. -/
theorem claim_C10_witness :
    (needleman_wunsch ['A', 'C'] ['A', 'G'] 1 (-1) 0).aligned_seq1.filter
        (fun c => c != '-') = ['A', 'C'] ∧
    (needleman_wunsch ['A', 'C'] ['A', 'G'] 1 (-1) 0).aligned_seq2.filter
        (fun c => c != '-') = ['A', 'G'] :=
  claim_C10_gap_removal ['A', 'C'] ['A', 'G'] 1 (-1) 0 (by decide) (by decide)

/-- Counterexample for C10 as stated over all inputs: when the input
itself contains the gap symbol, as in `seq1 = seq2 = "-"`, removing
all `'-'` characters from `aligned_seq1` gives the empty string, not
`seq1`. -/
theorem claim_C10_counterexample :
    (needleman_wunsch ['-'] ['-'] 1 (-1) 0).aligned_seq1.filter (fun c => c != '-') ≠
      ['-'] := by decide

/-- C9: when no interior cell of the local matrix is positive, the
local aligner still returns a well-formed result: empty aligned
strings, score 0, and all four coordinates at the origin.  (In the
embedding `smith_waterman` is a total function, so no exception can
be raised on this path.) -/
theorem claim_C9_all_nonpositive (a b : List Char) (mt mm gp : Int)
    (h : ∀ c ∈ swCells a.length b.length, swScore a b mt mm gp c.1 c.2 ≤ 0) :
    (smith_waterman a b mt mm gp).aligned_a = [] ∧
    (smith_waterman a b mt mm gp).aligned_b = [] ∧
    (smith_waterman a b mt mm gp).score = 0 ∧
    (smith_waterman a b mt mm gp).start_a = 0 ∧
    (smith_waterman a b mt mm gp).end_a = 0 ∧
    (smith_waterman a b mt mm gp).start_b = 0 ∧
    (smith_waterman a b mt mm gp).end_b = 0 := by
  have hbest : swBest a b mt mm gp = (0, (0, 0)) :=
    bestStep_foldl_const (fun c => swScore a b mt mm gp c.1 c.2)
      (swCells a.length b.length) (0, (0, 0)) h
  have htr : swTrace a b mt mm gp 0 0 = ⟨[], [], 0, 0⟩ :=
    swTrace_stop a b mt mm gp 0 0 (Or.inl rfl)
  refine ⟨?_, ?_, ?_, ?_, ?_, ?_, ?_⟩
  · rw [sw_aligned_a, hbest]
    simp [htr]
  · rw [sw_aligned_b, hbest]
    simp [htr]
  · rw [sw_score, hbest]
  · rw [(sw_start a b mt mm gp).1, hbest]
    simp [htr]
  · rw [(sw_end a b mt mm gp).1, hbest]
  · rw [(sw_start a b mt mm gp).2, hbest]
    simp [htr]
  · rw [(sw_end a b mt mm gp).2, hbest]

/-- Witness for C9: `"A"` vs `"B"` under the default local scoring has
an all-zero matrix. -/
theorem claim_C9_witness :
    (smith_waterman ['A'] ['B'] 2 (-1) (-2)).aligned_a = [] ∧
    (smith_waterman ['A'] ['B'] 2 (-1) (-2)).aligned_b = [] ∧
    (smith_waterman ['A'] ['B'] 2 (-1) (-2)).score = 0 ∧
    (smith_waterman ['A'] ['B'] 2 (-1) (-2)).start_a = 0 ∧
    (smith_waterman ['A'] ['B'] 2 (-1) (-2)).end_a = 0 ∧
    (smith_waterman ['A'] ['B'] 2 (-1) (-2)).start_b = 0 ∧
    (smith_waterman ['A'] ['B'] 2 (-1) (-2)).end_b = 0 :=
  claim_C9_all_nonpositive ['A'] ['B'] 2 (-1) (-2) (by decide)

/-- C6: the local aligner's score is always nonnegative, and at least
`match_score` whenever the two sequences share a character. -/
theorem claim_C6_score_bounds :
    (∀ (a b : List Char) (mt mm gp : Int), 0 ≤ (smith_waterman a b mt mm gp).score) ∧
    (∀ (a b : List Char) (mt mm gp : Int) (c : Char), c ∈ a → c ∈ b →
      mt ≤ (smith_waterman a b mt mm gp).score) := by
  constructor
  · intro a b mt mm gp
    rw [sw_score]
    exact swBest_nonneg a b mt mm gp
  · intro a b mt mm gp c hca hcb
    rw [sw_score]
    obtain ⟨i, hi, hia⟩ := List.getElem_of_mem hca
    obtain ⟨j, hj, hjb⟩ := List.getElem_of_mem hcb
    have hd : swDiag a b mt mm gp i j = swScore a b mt mm gp i j + mt := by
      unfold swDiag
      rw [List.getD_eq_getElem a ' ' hi, List.getD_eq_getElem b ' ' hj, hia, hjb,
        if_pos rfl]
    have hnn := swScore_nonneg a b mt mm gp i j
    have hcell : mt ≤ swScore a b mt mm gp (i + 1) (j + 1) := by
      rw [swScore_succ_succ]
      have hle : swDiag a b mt mm gp i j ≤
          max 0 (max (swDiag a b mt mm gp i j)
            (max (swUp a b mt mm gp i j) (swLeft a b mt mm gp i j))) :=
        le_trans (le_max_left _ _) (le_max_right _ _)
      omega
    have hmem : ((i + 1, j + 1) : Nat × Nat) ∈ swCells a.length b.length :=
      (mem_swCells a.length b.length (i + 1, j + 1)).mpr (by omega)
    exact le_trans hcell (swBest_ge a b mt mm gp (i + 1, j + 1) hmem)

/-- Witness for C6: `"A"` and `"A"` share a character, so the local
score reaches the match score 2. -/
theorem claim_C6_witness :
    (2 : Int) ≤ (smith_waterman ['A'] ['A'] 2 (-1) (-2)).score :=
  claim_C6_score_bounds.2 ['A'] ['A'] 2 (-1) (-2) 'A' (by decide) (by decide)

/-! ## Self-alignment of a sequence with itself (gap penalty 0) -/

/-- With gap penalty 0, row 0 of the global matrix is 0. -/
theorem nwScore_gp0_row0 (seq1 seq2 : List Char) (ms mms : Int) :
    ∀ j, nwScore seq1 seq2 ms mms 0 0 j = 0 := by
  intro j
  induction j with
  | zero => rfl
  | succ j ih =>
    have hstep : nwScore seq1 seq2 ms mms 0 0 (j + 1) =
        nwScore seq1 seq2 ms mms 0 0 j + 0 := rfl
    rw [hstep, ih]; ring

/-- With gap penalty 0, column 0 of the global matrix is 0. -/
theorem nwScore_gp0_col0 (seq1 seq2 : List Char) (ms mms : Int) :
    ∀ i, nwScore seq1 seq2 ms mms 0 i 0 = 0 := by
  intro i
  induction i with
  | zero => rfl
  | succ i ih =>
    have hstep : nwScore seq1 seq2 ms mms 0 (i + 1) 0 =
        nwScore seq1 seq2 ms mms 0 i 0 + 0 := rfl
    rw [hstep, ih]; ring

/-- Aligning `s` with itself under `(1, -1, 0)`, every cell is at most
`min i j` (each diagonal move gains at most 1, gap moves gain 0). -/
theorem nwScore_self_le (s : List Char) :
    ∀ n i j, i + j = n → nwScore s s 1 (-1) 0 i j ≤ (min i j : Nat) := by
  intro n
  induction n using Nat.strong_induction_on with
  | _ n ih =>
    intro i j hn
    rcases i with _ | i
    · rw [nwScore_gp0_row0]
      simp
    · rcases j with _ | j
      · rw [nwScore_gp0_col0]
        simp
      · rw [nwScore_succ_succ]
        have h1 := ih (i + j) (by omega) i j rfl
        have h2 := ih (i + (j + 1)) (by omega) i (j + 1) rfl
        have h3 := ih ((i + 1) + j) (by omega) (i + 1) j rfl
        have hd : nwDiag s s 1 (-1) 0 i j ≤ nwScore s s 1 (-1) 0 i j + 1 := by
          unfold nwDiag
          split_ifs <;> omega
        have hu : nwUp s s 1 (-1) 0 i j = nwScore s s 1 (-1) 0 i (j + 1) := by
          unfold nwUp; ring
        have hl : nwLeft s s 1 (-1) 0 i j = nwScore s s 1 (-1) 0 (i + 1) j := by
          unfold nwLeft; ring
        push_cast at h1 h2 h3 ⊢
        omega

/-- Aligning `s` with itself under `(1, -1, 0)`, the diagonal cell
`(i, i)` scores exactly `i`. -/
theorem nwScore_self_diag (s : List Char) :
    ∀ i, nwScore s s 1 (-1) 0 i i = (i : Nat) := by
  intro i
  induction i with
  | zero => rfl
  | succ i ih =>
    rw [nwScore_succ_succ]
    have hd : nwDiag s s 1 (-1) 0 i i = (i : Int) + 1 := by
      unfold nwDiag
      rw [if_pos rfl, ih]
    have hu : nwUp s s 1 (-1) 0 i i ≤ (i : Int) := by
      unfold nwUp
      have := nwScore_self_le s (i + (i + 1)) i (i + 1) rfl
      push_cast at this ⊢
      omega
    have hl : nwLeft s s 1 (-1) 0 i i ≤ (i : Int) := by
      unfold nwLeft
      have := nwScore_self_le s ((i + 1) + i) (i + 1) i rfl
      push_cast at this ⊢
      omega
    push_cast
    omega

/-- Aligning `s` with itself under `(1, -1, 0)`, every diagonal
interior cell records a diag pointer. -/
theorem nwPointer_self_diag (s : List Char) (i : Nat) :
    nwPointer s s 1 (-1) 0 (i + 1) (i + 1) = Dir.diag := by
  simp only [nwPointer]
  rw [if_pos]
  have hd : nwDiag s s 1 (-1) 0 i i = (i : Int) + 1 := by
    unfold nwDiag
    rw [if_pos rfl, nwScore_self_diag]
  have hu : nwUp s s 1 (-1) 0 i i ≤ (i : Int) := by
    unfold nwUp
    have := nwScore_self_le s (i + (i + 1)) i (i + 1) rfl
    push_cast at this ⊢
    omega
  have hl : nwLeft s s 1 (-1) 0 i i ≤ (i : Int) := by
    unfold nwLeft
    have := nwScore_self_le s ((i + 1) + i) (i + 1) i rfl
    push_cast at this ⊢
    omega
  omega

/-- Aligning `s` with itself under `(1, -1, 0)`, the traceback from
`(i, i)` returns the plain prefix of `s` on both sides. -/
theorem nwTrace_self (s : List Char) :
    ∀ i, i ≤ s.length → nwTrace s s 1 (-1) 0 i i = (s.take i, s.take i) := by
  intro i
  induction i with
  | zero => simp [nwTrace_zero]
  | succ i ih =>
    intro hle
    rw [nwTrace_succ_diag s s 1 (-1) 0 i i (nwPointer_self_diag s i), ih (by omega)]
    have htake : s.take (i + 1) = s.take i ++ [s.getD i ' '] := by
      rw [List.getD_eq_getElem s ' ' (by omega), List.take_succ,
        List.getElem?_eq_getElem (by omega)]
      rfl
    rw [htake]

/-- Zipping a list with itself, every pair matches. -/
theorem zip_self_countP (s : List Char) :
    ((s.zip s).countP fun p => p.1 == p.2) = s.length := by
  induction s with
  | nil => rfl
  | cons a t ih => simp [List.zip_cons_cons, List.countP_cons, ih]

/-- C4: self-alignment with `match = 1, mismatch = -1, gap = 0` on a
nonempty sequence gives 100.0 similarity and returns the sequence
itself, unchanged, on both sides. -/
theorem claim_C4_self_alignment (s : List Char) (h : s ≠ []) :
    (needleman_wunsch s s 1 (-1) 0).similarity = 100 ∧
    (needleman_wunsch s s 1 (-1) 0).aligned_seq1 = s ∧
    (needleman_wunsch s s 1 (-1) 0).aligned_seq2 = s := by
  have htr : nwTrace s s 1 (-1) 0 s.length s.length = (s, s) := by
    rw [nwTrace_self s s.length le_rfl, List.take_length]
  have hn : s.length ≠ 0 := fun hz => h (List.length_eq_zero.mp hz)
  refine ⟨?_, ?_, ?_⟩
  · rw [nw_similarity, htr]
    simp only
    rw [zip_self_countP, if_neg hn, mul_div_assoc,
      div_self (Nat.cast_ne_zero.mpr hn), mul_one]
  · rw [nw_aligned_seq1, htr]
  · rw [nw_aligned_seq2, htr]

/-- Witness for C4 on the nonempty sequence `"AC"`. -/
theorem claim_C4_witness :
    (needleman_wunsch ['A', 'C'] ['A', 'C'] 1 (-1) 0).similarity = 100 ∧
    (needleman_wunsch ['A', 'C'] ['A', 'C'] 1 (-1) 0).aligned_seq1 = ['A', 'C'] ∧
    (needleman_wunsch ['A', 'C'] ['A', 'C'] 1 (-1) 0).aligned_seq2 = ['A', 'C'] :=
  claim_C4_self_alignment ['A', 'C'] (by decide)

/-- C8: the traceback start `(end_a, end_b)` is the tracked best
position; its score is the returned score, which dominates every cell
of the whole `(na+1) × (nb+1)` matrix; and every cell scanned strictly
earlier in row-major order scores strictly less (so the kept cell is
the first maximum in scan order). -/
theorem claim_C8_best_cell (a b : List Char) (mt mm gp : Int) :
    ((smith_waterman a b mt mm gp).end_a, (smith_waterman a b mt mm gp).end_b) =
      (swBest a b mt mm gp).2 ∧
    swScore a b mt mm gp (swBest a b mt mm gp).2.1 (swBest a b mt mm gp).2.2 =
      (smith_waterman a b mt mm gp).score ∧
    (∀ i j, i ≤ a.length → j ≤ b.length →
      swScore a b mt mm gp i j ≤ (smith_waterman a b mt mm gp).score) ∧
    (∀ i j, i ≤ a.length → j ≤ b.length → rmLt (i, j) (swBest a b mt mm gp).2 →
      swScore a b mt mm gp i j < (smith_waterman a b mt mm gp).score) := by
  obtain ⟨h1, _, h3, h4⟩ := swBest_spec a b mt mm gp
  refine ⟨rfl, ?_, ?_, ?_⟩
  · rw [sw_score]
    exact h1
  · intro i j hi hj
    rw [sw_score]
    by_cases hint : 1 ≤ i ∧ 1 ≤ j
    · exact swBest_ge a b mt mm gp (i, j)
        ((mem_swCells a.length b.length (i, j)).mpr (by omega))
    · have hz : swScore a b mt mm gp i j = 0 := by
        by_cases hi0 : i = 0
        · rw [hi0, swScore_zero_row]
        · rw [show j = 0 by omega, swScore_zero_col]
      rw [hz]
      exact swBest_nonneg a b mt mm gp
  · intro i j hi hj hlt
    rw [sw_score]
    by_cases hint : 1 ≤ i ∧ 1 ≤ j
    · exact h3 (i, j) ((mem_swCells a.length b.length (i, j)).mpr (by omega)) hlt
    · have hz : swScore a b mt mm gp i j = 0 := by
        by_cases hi0 : i = 0
        · rw [hi0, swScore_zero_row]
        · rw [show j = 0 by omega, swScore_zero_col]
      have hne : (swBest a b mt mm gp).2 ≠ (0, 0) := by
        intro he
        rw [he] at hlt
        exact rmLt_zero (i, j) hlt
      rw [hz]
      exact h4 hne

/-- Witness for C8 on a cell of a concrete matrix. -/
theorem claim_C8_witness :
    swScore ['A'] ['A'] 2 (-1) (-2) 0 1 ≤ (smith_waterman ['A'] ['A'] 2 (-1) (-2)).score :=
  (claim_C8_best_cell ['A'] ['A'] 2 (-1) (-2)).2.2.1 0 1 (by decide) (by decide)

/-- The chunk loop started at `offset` emits exactly
`ceil((max_pos - offset) / step)` windows: the loop keeps running
while `offset < max_pos`, and a window sliced at a position strictly
below both lengths is never empty (for a positive `chunk_size`). -/
theorem chunkLoop_length (ga gb : List Char) (cs step : Nat) (mt mm gp : Int)
    (hcs : 0 < cs) (hstep : 0 < step) :
    ∀ n offset, min ga.length gb.length - offset = n →
      (chunkLoop ga gb cs step mt mm gp offset).length =
        (min ga.length gb.length - offset + step - 1) / step := by
  intro n
  induction n using Nat.strong_induction_on with
  | _ n ih =>
    intro offset hn
    by_cases h : offset < min ga.length gb.length
    · rw [chunkLoop_step ga gb cs step mt mm gp offset hstep h]
      have hwa : (ga.drop offset).take cs ≠ [] := by
        intro he
        have hlen : ((ga.drop offset).take cs).length = min cs (ga.length - offset) := by
          rw [List.length_take, List.length_drop]
        rw [he] at hlen
        simp only [List.length_nil] at hlen
        omega
      have hwb : (gb.drop offset).take cs ≠ [] := by
        intro he
        have hlen : ((gb.drop offset).take cs).length = min cs (gb.length - offset) := by
          rw [List.length_take, List.length_drop]
        rw [he] at hlen
        simp only [List.length_nil] at hlen
        omega
      rw [if_neg (not_or.mpr ⟨hwa, hwb⟩)]
      simp only [List.length_cons]
      rw [ih (min ga.length gb.length - (offset + step)) (by omega) (offset + step) rfl]
      by_cases hd : min ga.length gb.length - offset ≤ step
      · rw [show min ga.length gb.length - (offset + step) = 0 by omega]
        have hzero : (0 + step - 1) / step = 0 := by
          apply Nat.div_eq_of_lt
          omega
        have hone : (min ga.length gb.length - offset + step - 1) / step = 1 := by
          apply Nat.div_eq_of_lt_le <;> omega
        rw [hzero, hone]
      · rw [show min ga.length gb.length - (offset + step) =
          min ga.length gb.length - offset - step by omega]
        rw [show min ga.length gb.length - offset + step - 1 =
          (min ga.length gb.length - offset - step + step - 1) + step by omega]
        rw [Nat.add_div_right _ hstep]
    · rw [chunkLoop_stop ga gb cs step mt mm gp offset h]
      rw [show min ga.length gb.length - offset = 0 by omega]
      simp only [List.length_nil]
      rw [show (0 + step - 1) = step - 1 by omega]
      exact (Nat.div_eq_of_lt (by omega)).symm

/-- C1 (amended): for valid parameters the number of windows returned
by `chunked_alignment` is `ceil(min(len(a), len(b)) / step)` with
`step = chunk_size - overlap` (not `ceil((min − chunk_size)/step) + 1`:
the loop runs while `offset < min(len(a), len(b))`, so a final short
window is still emitted past the claimed last offset). -/
theorem claim_C1_window_count (ga gb : List Char) (chunk_size overlap mt mm gp : Int)
    (h1 : 0 < chunk_size) (h2 : 0 ≤ overlap) (h3 : overlap < chunk_size) :
    (chunked_alignment ga gb chunk_size overlap mt mm gp).map List.length =
      Except.ok ((min ga.length gb.length + (chunk_size - overlap).toNat - 1) /
        (chunk_size - overlap).toNat) := by
  unfold chunked_alignment
  rw [if_neg (by push_neg; exact ⟨by omega, by omega, by omega⟩)]
  simp only [Except.map]
  have := chunkLoop_length ga gb chunk_size.toNat (chunk_size - overlap).toNat mt mm gp
    (by omega) (by omega) (min ga.length gb.length - 0) 0 rfl
  rw [Nat.sub_zero] at this
  rw [this]

/-- Witness for C1 at the spec's concrete scenario: two 10-character
sequences, `chunk_size = 4`, `overlap = 2`. -/
theorem claim_C1_witness :
    (chunked_alignment ['A', 'C', 'G', 'T', 'A', 'C', 'G', 'T', 'A', 'C']
        ['A', 'C', 'G', 'T', 'A', 'C', 'G', 'T', 'A', 'C'] 4 2 2 (-1) (-2)).map
        List.length =
      Except.ok ((min (['A', 'C', 'G', 'T', 'A', 'C', 'G', 'T', 'A', 'C'] :
            List Char).length
          (['A', 'C', 'G', 'T', 'A', 'C', 'G', 'T', 'A', 'C'] : List Char).length +
          ((4 : Int) - 2).toNat - 1) / ((4 : Int) - 2).toNat) :=
  claim_C1_window_count ['A', 'C', 'G', 'T', 'A', 'C', 'G', 'T', 'A', 'C']
    ['A', 'C', 'G', 'T', 'A', 'C', 'G', 'T', 'A', 'C'] 4 2 2 (-1) (-2)
    (by decide) (by decide) (by decide)

/-- Counterexample for C1 as stated: on two 10-character sequences
with `chunk_size = 4, overlap = 2` the driver emits 5 windows
(offsets 0, 2, 4, 6 and a final 2-character window at offset 8), not
the claimed 4. -/
theorem claim_C1_counterexample :
    (chunked_alignment ['A', 'C', 'G', 'T', 'A', 'C', 'G', 'T', 'A', 'C']
        ['A', 'C', 'G', 'T', 'A', 'C', 'G', 'T', 'A', 'C'] 4 2 2 (-1) (-2)).toOption.map
        List.length = some 5 ∧
    (chunked_alignment ['A', 'C', 'G', 'T', 'A', 'C', 'G', 'T', 'A', 'C']
        ['A', 'C', 'G', 'T', 'A', 'C', 'G', 'T', 'A', 'C'] 4 2 2 (-1) (-2)).toOption.map
        List.length ≠ some 4 := by decide

end Bioinf
